import Mathlib

/-!
A verification development for the file cache engine of cache.py.

The embedding models:
* the timestamp helper format_as_timestamp (strftime with the
  "%Y-%m-%dT%H:%M:%S%z" format followed by splicing a colon before the
  last two characters),
* filename collision resolution (_get_unique_file_name, file_name_exists,
  os.path.splitext),
* the engine state: the metadata table (a list of rows) plus the
  filesystem (the set of existing paths), with the operations add_file,
  get_file_path, delete_file, clear, delete_older_than, _delete_entries,
  and table/folder initialization.

Machine datetimes are modelled by a record of calendar fields plus an
optional UTC offset in minutes (none models a naive datetime).
Chronological order is the proleptic Gregorian calendar order, obtained by
converting a datetime to a count of seconds (dayNumber/instantSecs below);
this also models the date/time-aware comparison that SQLite's datetime()
function performs on the stored timestamp strings.
-/

/-- Decimal digits of a natural number, most significant digit first
(fuel-based structural recursion; any fuel of at least n works, and the
empty list is returned for n = 0).  Together with decStr this models the
decimal rendering produced by str(n) in Python. -/
def decStrAux : Nat → Nat → List Char
  | 0, _ => []
  | fuel+1, n => if n = 0 then [] else decStrAux fuel (n / 10) ++ [Nat.digitChar (n % 10)]

/-- Decimal string of a natural number, as produced by str(n) in Python. -/
def decStr (n : Nat) : String :=
  if n = 0 then "0" else String.mk (decStrAux n n)

theorem decStrAux_zero (fuel : Nat) : decStrAux fuel 0 = [] := by
  cases fuel <;> simp [decStrAux]

theorem decStrAux_length : ∀ {fuel n : Nat}, 0 < n → n ≤ fuel →
    (decStrAux fuel n).length = Nat.log 10 n + 1 := by
  intro fuel
  induction fuel with
  | zero => intro n hn h; omega
  | succ fuel ih =>
    intro n hn h
    have hne : ¬ n = 0 := by omega
    simp only [decStrAux, if_neg hne, List.length_append, List.length_cons,
      List.length_nil]
    by_cases h10 : n < 10
    · rw [Nat.div_eq_of_lt h10, decStrAux_zero, Nat.log_of_lt h10]; rfl
    · have hd : 0 < n / 10 := Nat.div_pos (le_of_not_lt h10) (by norm_num)
      have hlt : n / 10 < n := Nat.div_lt_self hn (by norm_num)
      have hle : n / 10 ≤ fuel := by omega
      rw [ih hd hle, Nat.log_div_base 10 n]
      have hpos : 0 < Nat.log 10 n := Nat.log_pos (by norm_num) (le_of_not_lt h10)
      omega

theorem decStr_length {n : Nat} (hn : 0 < n) :
    (decStr n).length = Nat.log 10 n + 1 := by
  have hne : ¬ n = 0 := by omega
  rw [decStr, if_neg hne, String.length_mk, decStrAux_length hn (le_refl n)]

/-- os.path.join of the cache folder path and a file name (posix separator). -/
def pjoin (folder name : String) : String := folder ++ "/" ++ name

theorem pjoin_inj {folder a b : String} (h : pjoin folder a = pjoin folder b) :
    a = b := by
  have hd : (folder ++ "/").data ++ a.data = (folder ++ "/").data ++ b.data := by
    have := congrArg String.data h
    simpa only [pjoin, String.data_append] using this
  exact String.ext (List.append_cancel_left hd)

theorem pjoin_length (folder name : String) :
    (pjoin folder name).length = folder.length + 1 + name.length := by
  have h1 : ("/" : String).length = 1 := rfl
  simp only [pjoin, String.length_append, h1]

/-- Zero-padded fixed-width decimal rendering, as produced by the
zero-padded numeric strftime directives (%Y with width 4, %m, %d, %H, %M,
%S and the offset components with width 2). -/
def padL : Nat → Nat → List Char
  | 0, _ => []
  | w+1, n => Nat.digitChar (n / 10 ^ w) :: padL w (n % 10 ^ w)

theorem padL_length (w n : Nat) : (padL w n).length = w := by
  induction w generalizing n with
  | zero => rfl
  | succ w ih => simp [padL, ih]

/-- A model of a Python datetime at seconds precision: calendar fields plus
an optional UTC offset in minutes (offset = none models a naive datetime,
whose %z directive renders as the empty string). -/
structure DT where
  year : Nat
  month : Nat
  day : Nat
  hour : Nat
  minute : Nat
  second : Nat
  offset : Option Int
deriving DecidableEq

/-- Gregorian leap-year rule. -/
def leapYear (y : Nat) : Bool := (y % 4 == 0 && y % 100 != 0) || y % 400 == 0

/-- Length of a month (month numbered 1..12). -/
def monthLen (leap : Bool) : Nat → Nat
  | 1 => 31
  | 2 => if leap then 29 else 28
  | 3 => 31
  | 4 => 30
  | 5 => 31
  | 6 => 30
  | 7 => 31
  | 8 => 31
  | 9 => 30
  | 10 => 31
  | 11 => 30
  | 12 => 31
  | _ => 0

/-- Number of days in the year strictly before month m (month 1..12). -/
def doyPre (leap : Bool) : Nat → Nat
  | 1 => 0
  | 2 => 31
  | 3 => if leap then 60 else 59
  | 4 => if leap then 91 else 90
  | 5 => if leap then 121 else 120
  | 6 => if leap then 152 else 151
  | 7 => if leap then 182 else 181
  | 8 => if leap then 213 else 212
  | 9 => if leap then 244 else 243
  | 10 => if leap then 274 else 273
  | 11 => if leap then 305 else 304
  | 12 => if leap then 335 else 334
  | _ => 0

/-- Number of leap years in 1..(y-1). -/
def leapsBefore (y : Nat) : Nat := (y-1)/4 - (y-1)/100 + (y-1)/400

/-- Day count of a proleptic Gregorian calendar date, counted from
year 1, January 1 = day 0. -/
def dayNumber (y m d : Nat) : Nat :=
  365 * (y-1) + leapsBefore y + doyPre (leapYear y) m + (d-1)

/-- Seconds since the epoch of the civil (wall-clock) fields of a datetime. -/
def civilSecs (dt : DT) : Nat :=
  dayNumber dt.year dt.month dt.day * 86400 +
    dt.hour * 3600 + dt.minute * 60 + dt.second

/-- The instant a timezone-aware datetime denotes, in seconds: the civil
seconds minus the UTC offset.  This is chronological order on datetimes,
and also the value SQLite's datetime() normalizes a timestamp string to. -/
def instantSecs (dt : DT) : Int :=
  (civilSecs dt : Int) - 60 * (dt.offset.getD 0)

/-- Validity of the calendar fields of a datetime: the ranges Python's
datetime type enforces (year 1..9999, real calendar dates, offset strictly
less than a day in magnitude). -/
def DT.Valid (dt : DT) : Prop :=
  1 ≤ dt.year ∧ dt.year ≤ 9999 ∧ 1 ≤ dt.month ∧ dt.month ≤ 12 ∧
  1 ≤ dt.day ∧ dt.day ≤ monthLen (leapYear dt.year) dt.month ∧
  dt.hour ≤ 23 ∧ dt.minute ≤ 59 ∧ dt.second ≤ 59 ∧
  (∀ o ∈ dt.offset, -1439 ≤ o ∧ o ≤ 1439)

instance (dt : DT) : Decidable dt.Valid := by
  unfold DT.Valid; infer_instance

/-- The %z rendering of a UTC offset of o minutes: sign, then hours and
minutes, each two digits zero-padded, with no colon. -/
def tzChars (o : Int) : List Char :=
  (if o < 0 then '-' else '+') :: (padL 2 (o.natAbs / 60) ++ padL 2 (o.natAbs % 60))

/-- strftime(dt, "%Y-%m-%dT%H:%M:%S%z") as a character list: the
timestamp_format of cache.py before the colon is spliced in.  A naive
datetime renders %z as the empty string. -/
def strfTimestamp (dt : DT) : List Char :=
  padL 4 dt.year ++ '-' :: (padL 2 dt.month ++ '-' :: (padL 2 dt.day ++
    'T' :: (padL 2 dt.hour ++ ':' :: (padL 2 dt.minute ++ ':' :: (padL 2 dt.second ++
      (match dt.offset with
       | none => []
       | some o => tzChars o))))))

/-- format_as_timestamp of cache.py: format with timestamp_format, then
return text[:-2] + ":" + text[-2:], splicing a colon before the last two
characters (intended to separate the offset hours from the offset
minutes, as required by SQLite's date/time functions). -/
def format_as_timestamp (dt : DT) : String :=
  let text := strfTimestamp dt
  String.mk (text.take (text.length - 2) ++ ':' :: text.drop (text.length - 2))

/-- Numeric value of a decimal digit character. -/
def digitVal (c : Char) : Nat := c.toNat - 48

/-- A model of SQLite's datetime() applied to a stored timestamp string:
a string of the shape YYYY-MM-DDTHH:MM:SS+HH:MM (or with a minus sign)
is normalized to its UTC instant in seconds; any other string yields NULL
(modelled as none), as do out-of-range fields.  The day field is only
range-checked against 1..31; a day past the month length is carried into
the following month by the day arithmetic, as SQLite's julian-day
conversion does. -/
def parseTs (ts : String) : Option Int :=
  match ts.data with
  | [y1, y2, y3, y4, c1, mo1, mo2, c2, d1, d2, c3, h1, h2, c4, mi1, mi2, c5,
     s1, s2, sg, o1, o2, c6, o3, o4] =>
    if ([y1, y2, y3, y4, mo1, mo2, d1, d2, h1, h2, mi1, mi2, s1, s2,
          o1, o2, o3, o4].all Char.isDigit)
        && c1 == '-' && c2 == '-' && c3 == 'T' && c4 == ':' && c5 == ':'
        && c6 == ':' && (sg == '+' || sg == '-') then
      let y := digitVal y1 * 1000 + digitVal y2 * 100 + digitVal y3 * 10 + digitVal y4
      let mo := digitVal mo1 * 10 + digitVal mo2
      let d := digitVal d1 * 10 + digitVal d2
      let h := digitVal h1 * 10 + digitVal h2
      let mi := digitVal mi1 * 10 + digitVal mi2
      let s := digitVal s1 * 10 + digitVal s2
      let oh := digitVal o1 * 10 + digitVal o2
      let om := digitVal o3 * 10 + digitVal o4
      if 1 ≤ mo ∧ mo ≤ 12 ∧ 1 ≤ d ∧ d ≤ 31 ∧ h ≤ 23 ∧ mi ≤ 59 ∧ s ≤ 59
          ∧ oh ≤ 23 ∧ om ≤ 59 then
        let off : Int := (if sg == '-' then -1 else 1) * (oh * 60 + om)
        some ((dayNumber y mo d : Int) * 86400 + h * 3600 + mi * 60 + s - 60 * off)
      else none
    else none
  | _ => none

/-- The WHERE predicate datetime(timestamp) < datetime(cutoff) of
delete_older_than: SQLite compares the two normalized instants, and a NULL
on either side makes the row fail the WHERE clause. -/
def sqliteDtLt (a b : String) : Bool :=
  match parseTs a, parseTs b with
  | some x, some y => decide (x < y)
  | _, _ => false

/-- Index of the last occurrence of c in the list, or -1 when c does not
occur (str.rfind in Python). -/
def rfindChar (c : Char) : List Char → Int
  | [] => -1
  | x :: xs =>
    let r := rfindChar c xs
    if r ≥ 0 then r + 1 else if x = c then 0 else -1

/-- os.path.splitext as implemented by posixpath: split at the rightmost
dot lying after the rightmost path separator, provided some character
strictly between the separator and that dot is not itself a dot (so a
basename made of leading dots has no extension). -/
def splitext (p : String) : String × String :=
  let l := p.data
  let sepIndex := rfindChar '/' l
  let dotIndex := rfindChar '.' l
  if sepIndex < dotIndex ∧
      ∃ i : Fin l.length, sepIndex < (i : Int) ∧ (i : Int) < dotIndex ∧ l.get i ≠ '.' then
    (String.mk (l.take dotIndex.toNat), String.mk (l.drop dotIndex.toNat))
  else (p, "")

/-- A row of the cache table. -/
structure Entry where
  key : String
  file_name : String
  timestamp : String
deriving DecidableEq

/-- The cache engine state: the committed rows of the metadata table in
insertion order, and the set of paths existing on the filesystem. -/
structure CState where
  table : List Entry
  fs : Finset String
deriving DecidableEq

/-- Cache.file_name_exists: os.path.exists(os.path.join(folder_path, name)),
an existence check on disk. -/
def file_name_exists (fs : Finset String) (folder name : String) : Bool :=
  decide (pjoin folder name ∈ fs)

/-- The candidate name "{base} ({i}){ext}" probed inside
_get_unique_file_name. -/
def cand (base ext : String) (i : Nat) : String :=
  base ++ " (" ++ decStr i ++ ")" ++ ext

theorem exists_free_cand (fs : Finset String) (folder base ext : String) :
    ∃ k : Nat, ¬ file_name_exists fs folder (cand base ext (2 + k)) = true := by
  classical
  refine ⟨10 ^ (fs.sup String.length + 1) - 2, ?_⟩
  intro hmem
  set M := fs.sup String.length with hM
  have hpow : (10:Nat) ≤ 10 ^ (M + 1) := by
    calc (10:Nat) = 10 ^ 1 := (pow_one 10).symm
    _ ≤ 10 ^ (M + 1) := Nat.pow_le_pow_right (by norm_num) (by omega)
  have h2 : 2 + (10 ^ (M + 1) - 2) = 10 ^ (M + 1) := by omega
  rw [h2] at hmem
  have hmem' : pjoin folder (cand base ext (10 ^ (M + 1))) ∈ fs := by
    simpa [file_name_exists] using hmem
  have hsup : (pjoin folder (cand base ext (10 ^ (M + 1)))).length ≤ M :=
    hM ▸ Finset.le_sup (f := String.length) hmem'
  have hdec : (decStr (10 ^ (M + 1))).length = M + 2 := by
    rw [decStr_length (Nat.pos_pow_of_pos _ (by norm_num)), Nat.log_pow (by norm_num)]
  have hcand : (cand base ext (10 ^ (M + 1))).length =
      base.length + 2 + (M + 2) + 1 + ext.length := by
    simp only [cand, String.length_append, hdec]
    have h1 : (" (" : String).length = 2 := rfl
    have h3 : (")" : String).length = 1 := rfl
    omega
  rw [pjoin_length, hcand] at hsup
  omega

/-- Cache._get_unique_file_name: when the requested name already exists in
the folder, probe "{base} (2){ext}", "{base} (3){ext}", ... with an
incrementing counter and return the first candidate that does not exist
(Nat.find selects the least free counter offset, which is exactly where
the while loop stops); otherwise use the requested name unchanged. -/
def _get_unique_file_name (fs : Finset String) (folder target_file_name : String) : String :=
  if file_name_exists fs folder target_file_name then
    cand (splitext target_file_name).1 (splitext target_file_name).2
      (2 + Nat.find (exists_free_cand fs folder
        (splitext target_file_name).1 (splitext target_file_name).2))
  else target_file_name

theorem get_unique_not_exists (fs : Finset String) (folder t : String) :
    file_name_exists fs folder (_get_unique_file_name fs folder t) = false := by
  unfold _get_unique_file_name
  by_cases h : file_name_exists fs folder t = true
  · simp only [h, if_true]
    have := Nat.find_spec (exists_free_cand fs folder (splitext t).1 (splitext t).2)
    simpa using this
  · simp only [h]
    simpa using h

/-- Cache.get_file_path: select file_name where key = ? and fetch the
first row; None when the key has no row, else the folder path joined with
the stored file name. -/
def get_file_path (folder : String) (s : CState) (key : String) : Option String :=
  (s.table.find? (fun r => r.key == key)).map (fun r => pjoin folder r.file_name)

/-- The exceptions add_file can raise: the explicit duplicate-key
Exception, or a filesystem error from shutil.copyfile / shutil.move (in
this model: the source path does not exist). -/
inductive CacheErr where
  | duplicateKey (key : String)
  | transfer (src : String)
deriving DecidableEq

instance exceptDecEq {ε α : Type} [DecidableEq ε] [DecidableEq α] :
    DecidableEq (Except ε α) := fun x y =>
  match x, y with
  | Except.ok a, Except.ok b =>
    if h : a = b then isTrue (by rw [h]) else isFalse (fun hc => h (Except.ok.inj hc))
  | Except.error a, Except.error b =>
    if h : a = b then isTrue (by rw [h]) else isFalse (fun hc => h (Except.error.inj hc))
  | Except.ok _, Except.error _ => isFalse (fun hc => Except.noConfusion hc)
  | Except.error _, Except.ok _ => isFalse (fun hc => Except.noConfusion hc)

/-- Cache.add_file: raise on a duplicate key; resolve a unique stored
name; copy (copy_file = true) or move (copy_file = false) the source file
to the folder under that name; insert the row, commit, and return
get_file_path(key).  The returned state carries the mutations performed
before any raised error — for both error cases nothing has mutated yet.
The ts argument stands for the string
format_as_timestamp(datetime.now().astimezone()) computed inside. -/
def add_file (folder : String) (s : CState) (key file_path target_file_name : String)
    (copy_file : Bool) (ts : String) : CState × Except CacheErr (Option String) :=
  match s.table.find? (fun r => r.key == key) with
  | some _ => (s, Except.error (CacheErr.duplicateKey key))
  | none =>
    let name := _get_unique_file_name s.fs folder target_file_name
    let target := pjoin folder name
    if file_path ∈ s.fs then
      let fs' := if copy_file then insert target s.fs
                 else insert target (s.fs.erase file_path)
      let s' : CState := ⟨s.table ++ [⟨key, name, ts⟩], fs'⟩
      (s', Except.ok (get_file_path folder s' key))
    else (s, Except.error (CacheErr.transfer file_path))

/-- The per-candidate loop of Cache._delete_entries: attempt os.remove on
each candidate's stored file; a present file is removed and its key is
recorded as deleted, an absent file raises and the (key, failure detail)
pair is recorded instead (the detail being the path whose removal
failed); either way the loop continues with the remaining candidates. -/
def removeLoop (folder : String) :
    Finset String → List (String × String) →
      Finset String × List String × List (String × String)
  | fs, [] => (fs, [], [])
  | fs, (key, fn) :: rest =>
    let p := pjoin folder fn
    if p ∈ fs then
      let r := removeLoop folder (fs.erase p) rest
      (r.1, key :: r.2.1, r.2.2)
    else
      let r := removeLoop folder fs rest
      (r.1, r.2.1, (key, p) :: r.2.2)

/-- Cache._delete_entries on an already-fetched candidate list: run the
removal loop over every candidate, then delete from the table each row
whose key was successfully removed, commit once after all candidates have
been attempted, and return the accumulated error list. -/
def _delete_entries (folder : String) (s : CState) (entries : List (String × String)) :
    CState × List (String × String) :=
  let r := removeLoop folder s.fs entries
  (⟨s.table.filter (fun row => decide (row.key ∉ r.2.1)), r.1⟩, r.2.2)

/-- Cache.delete_file: the candidate set is the rows whose key matches;
deleting an absent key selects no candidates. -/
def delete_file (folder : String) (s : CState) (key : String) :
    CState × List (String × String) :=
  _delete_entries folder s
    ((s.table.filter (fun r => r.key == key)).map (fun r => (r.key, r.file_name)))

/-- Cache.clear: every row of the table is a candidate. -/
def cache_clear (folder : String) (s : CState) : CState × List (String × String) :=
  _delete_entries folder s (s.table.map (fun r => (r.key, r.file_name)))

/-- Cache.delete_older_than: the candidate set is the rows satisfying
datetime(timestamp) < datetime(cutoff), where the cutoff string is the
formatted timestamp of (datetime.now() - delta).astimezone(); that
already-subtracted instant is taken here as the input now_minus_delta. -/
def delete_older_than (folder : String) (s : CState) (now_minus_delta : DT) :
    CState × List (String × String) :=
  _delete_entries folder s
    ((s.table.filter
        (fun r => sqliteDtLt r.timestamp (format_as_timestamp now_minus_delta))).map
      (fun r => (r.key, r.file_name)))

/-- An unconditional CREATE TABLE statement: an error when the table
already exists, otherwise the empty table is created. -/
def create_table (db : Option (List Entry)) : Except String (Option (List Entry)) :=
  match db with
  | some _ => Except.error "table already exists"
  | none => Except.ok (some [])

/-- Cache._init_db: query sqlite_master for the table name; only when that
catalog query returns no row is CREATE TABLE executed; then commit. -/
def _init_db (db : Option (List Entry)) : Except String (Option (List Entry)) :=
  match db with
  | none => create_table none
  | some rows => Except.ok (some rows)

/-- Cache._init_folder: Path(folder_path).mkdir(parents=True,
exist_ok=True), which succeeds whether or not the folder exists. -/
def _init_folder (_folderExists : Bool) : Bool := true

/-- The effect of constructing a Cache engine on the metadata store and
the cache folder (db = none models an absent table). -/
def initCache (db : Option (List Entry)) (folderExists : Bool) :
    Except String (Option (List Entry) × Bool) :=
  match _init_db db with
  | Except.error e => Except.error e
  | Except.ok db' => Except.ok (db', _init_folder folderExists)

theorem not_mem_of_get_unique (fs : Finset String) (folder t : String) :
    pjoin folder (_get_unique_file_name fs folder t) ∉ fs := by
  have h := get_unique_not_exists fs folder t
  simpa [file_name_exists] using h

/-- C3: for every folder state and requested name with splitext
decomposition (base, ext): when no file of the requested name exists in
the folder the name is returned unchanged, and otherwise the result is
"{base} ({i}){ext}" for the smallest i greater than or equal to 2 whose
candidate does not exist in the folder.  Existence is checked against the
folder contents fs only; the metadata table is not consulted. -/
theorem c3_collision_resolution (fs : Finset String) (folder name base ext : String)
    (hsplit : splitext name = (base, ext)) :
    (file_name_exists fs folder name = false →
      _get_unique_file_name fs folder name = name) ∧
    (file_name_exists fs folder name = true →
      ∃ i, 2 ≤ i ∧ _get_unique_file_name fs folder name = cand base ext i ∧
        file_name_exists fs folder (cand base ext i) = false ∧
        ∀ j, 2 ≤ j → j < i → file_name_exists fs folder (cand base ext j) = true) := by
  constructor
  · intro h
    unfold _get_unique_file_name
    simp [h]
  · intro h
    have hb : (splitext name).1 = base := by rw [hsplit]
    have he : (splitext name).2 = ext := by rw [hsplit]
    rw [← hb, ← he]
    unfold _get_unique_file_name
    simp only [h, if_true]
    refine ⟨2 + Nat.find (exists_free_cand fs folder (splitext name).1 (splitext name).2),
      by omega, rfl, ?_, ?_⟩
    · have := Nat.find_spec (exists_free_cand fs folder (splitext name).1 (splitext name).2)
      simpa using this
    · intro j h2 hj
      have hlt : j - 2 <
          Nat.find (exists_free_cand fs folder (splitext name).1 (splitext name).2) := by
        omega
      have hmin := Nat.find_min (exists_free_cand fs folder (splitext name).1 (splitext name).2) hlt
      simp only [not_not] at hmin
      have hj2 : 2 + (j - 2) = j := by omega
      rwa [hj2] at hmin

theorem c3_collision_resolution_witness :
    splitext "x.txt" = ("x", ".txt") ∧
    (file_name_exists {"cache/x.txt"} "cache" "x.txt" = false →
      _get_unique_file_name {"cache/x.txt"} "cache" "x.txt" = "x.txt") ∧
    (file_name_exists {"cache/x.txt"} "cache" "x.txt" = true →
      ∃ i, 2 ≤ i ∧
        _get_unique_file_name {"cache/x.txt"} "cache" "x.txt" = cand "x" ".txt" i ∧
        file_name_exists {"cache/x.txt"} "cache" (cand "x" ".txt" i) = false ∧
        ∀ j, 2 ≤ j → j < i →
          file_name_exists {"cache/x.txt"} "cache" (cand "x" ".txt" j) = true) :=
  ⟨by decide, c3_collision_resolution {"cache/x.txt"} "cache" "x.txt" "x" ".txt" (by decide)⟩

/-- C4: calling add_file with a key that already has a row raises the
duplicate-key Exception and leaves the metadata store and the cache
folder exactly as they were: the returned state is the input state, with
no file transferred and no row inserted. -/
theorem c4_duplicate_key (folder : String) (s : CState)
    (key file_path target ts : String) (copy_file : Bool)
    (row : Entry) (hrow : row ∈ s.table) (hkey : row.key = key) :
    add_file folder s key file_path target copy_file ts =
      (s, Except.error (CacheErr.duplicateKey key)) := by
  cases hfind : s.table.find? (fun r => r.key == key) with
  | none =>
    rw [List.find?_eq_none] at hfind
    exact absurd (by simp [hkey]) (hfind row hrow)
  | some r =>
    unfold add_file
    rw [hfind]

theorem c4_duplicate_key_witness :
    (⟨"k", "a.txt", "t1"⟩ : Entry) ∈ (⟨[⟨"k", "a.txt", "t1"⟩], {"cache/a.txt"}⟩ : CState).table ∧
    (⟨"k", "a.txt", "t1"⟩ : Entry).key = "k" ∧
    add_file "cache" ⟨[⟨"k", "a.txt", "t1"⟩], {"cache/a.txt"}⟩ "k" "/tmp/src" "b.txt" true "t2" =
      (⟨[⟨"k", "a.txt", "t1"⟩], {"cache/a.txt"}⟩, Except.error (CacheErr.duplicateKey "k")) :=
  ⟨by decide, rfl,
    c4_duplicate_key "cache" ⟨[⟨"k", "a.txt", "t1"⟩], {"cache/a.txt"}⟩ "k" "/tmp/src"
      "b.txt" "t2" true ⟨"k", "a.txt", "t1"⟩ (by decide) rfl⟩

theorem add_file_ok (folder : String) (s : CState) (key file_path target ts : String)
    (copy_file : Bool) (s' : CState) (P : Option String)
    (h : add_file folder s key file_path target copy_file ts = (s', Except.ok P)) :
    s.table.find? (fun r => r.key == key) = none ∧
    file_path ∈ s.fs ∧
    s'.table = s.table ++ [⟨key, _get_unique_file_name s.fs folder target, ts⟩] ∧
    s'.fs = (if copy_file then
        insert (pjoin folder (_get_unique_file_name s.fs folder target)) s.fs
      else
        insert (pjoin folder (_get_unique_file_name s.fs folder target))
          (s.fs.erase file_path)) ∧
    P = get_file_path folder s' key := by
  cases hfind : s.table.find? (fun r => r.key == key) with
  | some r =>
    unfold add_file at h
    rw [hfind] at h
    injection h with h1 h2
    exact absurd h2 (by simp)
  | none =>
    unfold add_file at h
    rw [hfind] at h
    by_cases hmem : file_path ∈ s.fs
    · simp only [if_pos hmem] at h
      injection h with h1 h2
      injection h2 with h2
      subst h1
      exact ⟨rfl, hmem, rfl, rfl, h2.symm⟩
    · simp only [if_neg hmem] at h
      injection h with h1 h2
      exact absurd h2 (by simp)

/-- C7: a successful add_file returns the path some P; an immediately
following get_file_path on the same key returns exactly P; and P is the
cache folder path joined with the resolved stored file name. -/
theorem c7_roundtrip (folder : String) (s : CState)
    (key file_path target ts : String) (copy_file : Bool)
    (s' : CState) (P : Option String)
    (h : add_file folder s key file_path target copy_file ts = (s', Except.ok P)) :
    P = some (pjoin folder (_get_unique_file_name s.fs folder target)) ∧
    get_file_path folder s' key = P := by
  obtain ⟨hfind, hmem, htab, hfs, hP⟩ :=
    add_file_ok folder s key file_path target ts copy_file s' P h
  have hgf : get_file_path folder s' key =
      some (pjoin folder (_get_unique_file_name s.fs folder target)) := by
    unfold get_file_path
    rw [htab, List.find?_append, hfind]
    simp
  exact ⟨hP.trans hgf, hP.symm⟩

theorem c7_roundtrip_witness :
    add_file "cache" ⟨[], {"/tmp/a"}⟩ "k" "/tmp/a" "x.txt" true "t" =
      (⟨[⟨"k", "x.txt", "t"⟩], {"cache/x.txt", "/tmp/a"}⟩, Except.ok (some "cache/x.txt")) ∧
    (some "cache/x.txt" : Option String) =
      some (pjoin "cache" (_get_unique_file_name {"/tmp/a"} "cache" "x.txt")) ∧
    get_file_path "cache" ⟨[⟨"k", "x.txt", "t"⟩], {"cache/x.txt", "/tmp/a"}⟩ "k" =
      some "cache/x.txt" :=
  ⟨by decide,
    c7_roundtrip "cache" ⟨[], {"/tmp/a"}⟩ "k" "/tmp/a" "x.txt" "t" true
      ⟨[⟨"k", "x.txt", "t"⟩], {"cache/x.txt", "/tmp/a"}⟩ (some "cache/x.txt") (by decide)⟩

/-- C8: after a successful add_file with copy_file = false (move), no
file remains at the source path and a file exists at the resolved stored
path; after a successful add_file with copy_file = true (copy), files
exist at both the source path and the resolved stored path. -/
theorem c8_transfer_modes (folder : String) (s : CState)
    (key file_path target ts : String) (copy_file : Bool)
    (s' : CState) (P : Option String)
    (h : add_file folder s key file_path target copy_file ts = (s', Except.ok P)) :
    (copy_file = false → file_path ∉ s'.fs ∧
        pjoin folder (_get_unique_file_name s.fs folder target) ∈ s'.fs) ∧
    (copy_file = true → file_path ∈ s'.fs ∧
        pjoin folder (_get_unique_file_name s.fs folder target) ∈ s'.fs) := by
  obtain ⟨hfind, hmem, htab, hfs, hP⟩ :=
    add_file_ok folder s key file_path target ts copy_file s' P h
  have hnot := not_mem_of_get_unique s.fs folder target
  have hne : file_path ≠ pjoin folder (_get_unique_file_name s.fs folder target) := by
    intro he
    exact hnot (he ▸ hmem)
  constructor
  · intro hc
    subst hc
    rw [hfs]
    rw [if_neg (by simp)]
    refine ⟨?_, Finset.mem_insert_self _ _⟩
    intro hcon
    rcases Finset.mem_insert.mp hcon with h1 | h1
    · exact hne h1
    · exact Finset.not_mem_erase _ _ h1
  · intro hc
    subst hc
    rw [hfs]
    rw [if_pos rfl]
    exact ⟨Finset.mem_insert_of_mem hmem, Finset.mem_insert_self _ _⟩

theorem c8_transfer_modes_witness :
    add_file "cache" ⟨[], {"/tmp/a"}⟩ "k" "/tmp/a" "x.txt" false "t" =
      (⟨[⟨"k", "x.txt", "t"⟩], {"cache/x.txt"}⟩, Except.ok (some "cache/x.txt")) ∧
    ((false = false → "/tmp/a" ∉ (⟨[⟨"k", "x.txt", "t"⟩], {"cache/x.txt"}⟩ : CState).fs ∧
        pjoin "cache" (_get_unique_file_name {"/tmp/a"} "cache" "x.txt") ∈
          (⟨[⟨"k", "x.txt", "t"⟩], {"cache/x.txt"}⟩ : CState).fs) ∧
      (false = true → "/tmp/a" ∈ (⟨[⟨"k", "x.txt", "t"⟩], {"cache/x.txt"}⟩ : CState).fs ∧
        pjoin "cache" (_get_unique_file_name {"/tmp/a"} "cache" "x.txt") ∈
          (⟨[⟨"k", "x.txt", "t"⟩], {"cache/x.txt"}⟩ : CState).fs)) :=
  ⟨by decide,
    c8_transfer_modes "cache" ⟨[], {"/tmp/a"}⟩ "k" "/tmp/a" "x.txt" "t" false
      ⟨[⟨"k", "x.txt", "t"⟩], {"cache/x.txt"}⟩ (some "cache/x.txt") (by decide)⟩

/-- C9: construction is idempotent: initializing the store and folder
never errors, the table is created only when absent (the catalog query
guards the CREATE TABLE), every pre-existing row is preserved, and a
second construction against the already-initialized store and folder
returns the same state. -/
theorem c9_init_idempotent (db : Option (List Entry)) (folderExists : Bool) :
    ∃ rows : List Entry,
      initCache db folderExists = Except.ok (some rows, true) ∧
      (∀ prev, db = some prev → rows = prev) ∧
      initCache (some rows) true = Except.ok (some rows, true) := by
  cases db with
  | none =>
    refine ⟨[], rfl, ?_, rfl⟩
    intro prev hprev
    cases hprev
  | some rows =>
    refine ⟨rows, rfl, ?_, rfl⟩
    intro prev hprev
    cases hprev
    rfl

theorem removeLoop_spec (folder : String) :
    ∀ (entries : List (String × String)) (fs : Finset String),
    (entries.map Prod.snd).Nodup →
    (removeLoop folder fs entries).2.1 =
      (entries.filter (fun e => decide (pjoin folder e.2 ∈ fs))).map Prod.fst ∧
    (removeLoop folder fs entries).2.2 =
      (entries.filter (fun e => decide (pjoin folder e.2 ∉ fs))).map
        (fun e => (e.1, pjoin folder e.2)) ∧
    ∀ q, q ∈ (removeLoop folder fs entries).1 ↔
      q ∈ fs ∧ q ∉ (entries.filter (fun e => decide (pjoin folder e.2 ∈ fs))).map
        (fun e => pjoin folder e.2) := by
  intro entries
  induction entries with
  | nil =>
    intro fs _
    refine ⟨rfl, rfl, ?_⟩
    intro q
    simp [removeLoop]
  | cons e rest ih =>
    intro fs hnames
    obtain ⟨key, fn⟩ := e
    simp only [List.map_cons, List.nodup_cons] at hnames
    obtain ⟨hfn, hrest⟩ := hnames
    by_cases hp : pjoin folder fn ∈ fs
    · have hunfold : removeLoop folder fs ((key, fn) :: rest) =
          ((removeLoop folder (fs.erase (pjoin folder fn)) rest).1,
            key :: (removeLoop folder (fs.erase (pjoin folder fn)) rest).2.1,
            (removeLoop folder (fs.erase (pjoin folder fn)) rest).2.2) := by
        simp only [removeLoop]
        rw [if_pos hp]
      have hagree : ∀ e' ∈ rest,
          (decide (pjoin folder e'.2 ∈ fs.erase (pjoin folder fn))) =
          (decide (pjoin folder e'.2 ∈ fs)) := by
        intro e' he'
        have hne2 : e'.2 ≠ fn := by
          intro hEq
          exact hfn (hEq ▸ List.mem_map_of_mem Prod.snd he')
        have hnep : pjoin folder e'.2 ≠ pjoin folder fn :=
          fun hEq => hne2 (pjoin_inj hEq)
        simp [Finset.mem_erase, hnep]
      have hagree' : ∀ e' ∈ rest,
          (decide (pjoin folder e'.2 ∉ fs.erase (pjoin folder fn))) =
          (decide (pjoin folder e'.2 ∉ fs)) := by
        intro e' he'
        have h := hagree e' he'
        simp only [decide_not, h]
      obtain ⟨ih1, ih2, ih3⟩ := ih (fs.erase (pjoin folder fn)) hrest
      rw [hunfold]
      refine ⟨?_, ?_, ?_⟩
      · rw [ih1, List.filter_congr hagree]
        simp [hp]
      · rw [ih2, List.filter_congr hagree']
        simp [hp]
      · intro q
        rw [ih3 q, List.filter_congr hagree]
        have hcons : List.filter (fun e => decide (pjoin folder e.2 ∈ fs))
              ((key, fn) :: rest) =
            (key, fn) :: List.filter (fun e => decide (pjoin folder e.2 ∈ fs)) rest := by
          rw [List.filter_cons_of_pos]
          exact decide_eq_true hp
        rw [hcons, List.map_cons]
        constructor
        · rintro ⟨hq1, hq2⟩
          obtain ⟨hqne, hqfs⟩ := Finset.mem_erase.mp hq1
          refine ⟨hqfs, ?_⟩
          intro hc
          rcases List.mem_cons.mp hc with hc | hc
          · exact hqne hc
          · exact hq2 hc
        · rintro ⟨hq1, hq2⟩
          have hqne : q ≠ pjoin folder fn := by
            intro hEq
            exact hq2 (hEq ▸ List.mem_cons_self _ _)
          refine ⟨Finset.mem_erase.mpr ⟨hqne, hq1⟩, ?_⟩
          intro hc
          exact hq2 (List.mem_cons_of_mem _ hc)
    · have hunfold : removeLoop folder fs ((key, fn) :: rest) =
          ((removeLoop folder fs rest).1, (removeLoop folder fs rest).2.1,
            (key, pjoin folder fn) :: (removeLoop folder fs rest).2.2) := by
        simp only [removeLoop]
        rw [if_neg hp]
      obtain ⟨ih1, ih2, ih3⟩ := ih fs hrest
      rw [hunfold]
      refine ⟨?_, ?_, ?_⟩
      · rw [ih1]
        simp [hp]
      · rw [ih2]
        simp [hp]
      · intro q
        rw [ih3 q]
        simp [hp]

/-- C2: for the candidate set fetched by delete_file, clear, or
delete_older_than (rows of the table, so keys and stored names are
pairwise distinct): every candidate whose physical file is absent
contributes exactly one (key, failure detail) pair to the returned error
list and keeps its metadata row; every candidate whose file is present
has its file removed and its row deleted; a failure on one candidate
does not stop the processing of the remaining candidates (the error and
success lists together traverse the entire candidate list), and the row
removals are applied against the table once, after all candidates have
been attempted, in a single commit. -/
theorem c2_delete_entries (folder : String) (s : CState)
    (entries : List (String × String))
    (hkeys : (entries.map Prod.fst).Nodup)
    (hnames : (entries.map Prod.snd).Nodup) :
    (_delete_entries folder s entries).2 =
      (entries.filter (fun e => decide (pjoin folder e.2 ∉ s.fs))).map
        (fun e => (e.1, pjoin folder e.2)) ∧
    (_delete_entries folder s entries).1.table =
      s.table.filter (fun row => decide (row.key ∉
        (entries.filter (fun e => decide (pjoin folder e.2 ∈ s.fs))).map Prod.fst)) ∧
    (∀ q, q ∈ (_delete_entries folder s entries).1.fs ↔
      q ∈ s.fs ∧ q ∉ (entries.filter (fun e => decide (pjoin folder e.2 ∈ s.fs))).map
        (fun e => pjoin folder e.2)) ∧
    (∀ e ∈ entries, pjoin folder e.2 ∉ s.fs →
      ∀ row ∈ s.table, row.key = e.1 →
        row ∈ (_delete_entries folder s entries).1.table) ∧
    (∀ e ∈ entries, pjoin folder e.2 ∈ s.fs →
      ∀ row ∈ (_delete_entries folder s entries).1.table, row.key ≠ e.1) := by
  obtain ⟨h1, h2, h3⟩ := removeLoop_spec folder entries s.fs hnames
  have hres : _delete_entries folder s entries =
      (⟨s.table.filter (fun row => decide (row.key ∉
          (entries.filter (fun e => decide (pjoin folder e.2 ∈ s.fs))).map Prod.fst)),
        (removeLoop folder s.fs entries).1⟩,
       (entries.filter (fun e => decide (pjoin folder e.2 ∉ s.fs))).map
         (fun e => (e.1, pjoin folder e.2))) := by
    simp only [_delete_entries, h1, h2]
  rw [hres]
  refine ⟨rfl, rfl, h3, ?_, ?_⟩
  · intro e he habs row hrow hkey
    rw [List.mem_filter]
    refine ⟨hrow, ?_⟩
    rw [decide_eq_true_eq]
    intro hc
    rw [List.mem_map] at hc
    obtain ⟨e', he', hfst⟩ := hc
    rw [List.mem_filter] at he'
    obtain ⟨he'mem, he'pres⟩ := he'
    rw [decide_eq_true_eq] at he'pres
    have : e' = e :=
      List.inj_on_of_nodup_map hkeys he'mem he (by rw [hfst, hkey])
    rw [this] at he'pres
    exact habs he'pres
  · intro e he hpres row hrow
    rw [List.mem_filter, decide_eq_true_eq] at hrow
    intro hkeq
    apply hrow.2
    rw [List.mem_map]
    exact ⟨e, List.mem_filter.mpr ⟨he, decide_eq_true hpres⟩, hkeq.symm⟩

/-- Witness for C2, the worked example of the specification: three cached
files, the first one removed out-of-band before clearing; clear reports
exactly that key and retains exactly that row, while the other two rows
and files are gone. -/
theorem c2_delete_entries_witness :
    (([("1", "a.txt"), ("2", "b.txt"), ("3", "c.txt")].map Prod.fst).Nodup ∧
     ([("1", "a.txt"), ("2", "b.txt"), ("3", "c.txt")].map Prod.snd).Nodup) ∧
    (_delete_entries "cache"
        ⟨[⟨"1", "a.txt", "t1"⟩, ⟨"2", "b.txt", "t2"⟩, ⟨"3", "c.txt", "t3"⟩],
          {"cache/b.txt", "cache/c.txt"}⟩
        [("1", "a.txt"), ("2", "b.txt"), ("3", "c.txt")]).2 = [("1", "cache/a.txt")] ∧
    (_delete_entries "cache"
        ⟨[⟨"1", "a.txt", "t1"⟩, ⟨"2", "b.txt", "t2"⟩, ⟨"3", "c.txt", "t3"⟩],
          {"cache/b.txt", "cache/c.txt"}⟩
        [("1", "a.txt"), ("2", "b.txt"), ("3", "c.txt")]).1 =
      ⟨[⟨"1", "a.txt", "t1"⟩], ∅⟩ := by
  refine ⟨⟨by decide, by decide⟩, ?_, ?_⟩
  · have h := c2_delete_entries "cache"
      ⟨[⟨"1", "a.txt", "t1"⟩, ⟨"2", "b.txt", "t2"⟩, ⟨"3", "c.txt", "t3"⟩],
        {"cache/b.txt", "cache/c.txt"}⟩
      [("1", "a.txt"), ("2", "b.txt"), ("3", "c.txt")] (by decide) (by decide)
    rw [h.1]
    decide
  · decide

theorem pjoin_cache_ne_tmp (n : String) : pjoin "cache" n ≠ "/tmp/a" := by
  intro hmem
  have h2 : (pjoin "cache" n).data.head? = ("/tmp/a" : String).data.head? := by
    rw [hmem]
  have hc : ("cache" : String).data = ['c', 'a', 'c', 'h', 'e'] := rfl
  have hs : ("/" : String).data = ['/'] := rfl
  have hr : ("/tmp/a" : String).data = ['/', 't', 'm', 'p', '/', 'a'] := rfl
  rw [pjoin, String.data_append, String.data_append, hc, hs, hr] at h2
  simp at h2

/-- One successful add_file call on the engine, with arbitrary call
parameters. -/
inductive AddStep (folder : String) : CState → CState → Prop where
  | step (s : CState) (key file_path target ts : String) (copy_file : Bool)
      (s' : CState) (P : Option String)
      (h : add_file folder s key file_path target copy_file ts = (s', Except.ok P)) :
      AddStep folder s s'

/-- One successful add_file call whose source path does not lie inside
the cache folder. -/
inductive AddStepOutside (folder : String) : CState → CState → Prop where
  | step (s : CState) (key file_path target ts : String) (copy_file : Bool)
      (s' : CState) (P : Option String)
      (hfp : ∀ n, file_path ≠ pjoin folder n)
      (h : add_file folder s key file_path target copy_file ts = (s', Except.ok P)) :
      AddStepOutside folder s s'

/-- An empty metadata store together with an empty cache folder; source
files may exist elsewhere on the filesystem. -/
def EmptyInit (folder : String) (s : CState) : Prop :=
  s.table = [] ∧ ∀ n, pjoin folder n ∉ s.fs

/-- The inductive invariant behind uniqueness: keys are pairwise
distinct, stored names are pairwise distinct, and every row's stored
file is present in the folder. -/
def CacheInv (folder : String) (s : CState) : Prop :=
  (s.table.map Entry.key).Nodup ∧ (s.table.map Entry.file_name).Nodup ∧
  ∀ e ∈ s.table, pjoin folder e.file_name ∈ s.fs

theorem inv_step (folder : String) (s : CState) (key fp target ts : String)
    (copy_file : Bool) (s' : CState) (P : Option String)
    (hfp : ∀ n, fp ≠ pjoin folder n)
    (h : add_file folder s key fp target copy_file ts = (s', Except.ok P))
    (hinv : CacheInv folder s) : CacheInv folder s' := by
  obtain ⟨hfind, hmem, htab, hfs, hP⟩ :=
    add_file_ok folder s key fp target ts copy_file s' P h
  obtain ⟨hk, hn, hpres⟩ := hinv
  have hnotin : pjoin folder (_get_unique_file_name s.fs folder target) ∉ s.fs :=
    not_mem_of_get_unique s.fs folder target
  have hknew : key ∉ s.table.map Entry.key := by
    intro hc
    rw [List.mem_map] at hc
    obtain ⟨r, hr, hrk⟩ := hc
    rw [List.find?_eq_none] at hfind
    exact hfind r hr (by simp [hrk])
  have hnnew : _get_unique_file_name s.fs folder target ∉ s.table.map Entry.file_name := by
    intro hc
    rw [List.mem_map] at hc
    obtain ⟨r, hr, hrn⟩ := hc
    exact hnotin (hrn ▸ hpres r hr)
  refine ⟨?_, ?_, ?_⟩
  · rw [htab, List.map_append]
    exact ((List.perm_append_singleton _ _).nodup_iff).mpr
      (List.nodup_cons.mpr ⟨hknew, hk⟩)
  · rw [htab, List.map_append]
    exact ((List.perm_append_singleton _ _).nodup_iff).mpr
      (List.nodup_cons.mpr ⟨hnnew, hn⟩)
  · intro e he
    rw [htab] at he
    rw [hfs]
    rcases List.mem_append.mp he with hold | hnew
    · have hold' : pjoin folder e.file_name ∈ s.fs := hpres e hold
      have hne : pjoin folder e.file_name ≠ fp := fun hEq => hfp e.file_name hEq.symm
      cases copy_file with
      | true =>
        rw [if_pos rfl]
        exact Finset.mem_insert_of_mem hold'
      | false =>
        rw [if_neg (by simp)]
        exact Finset.mem_insert_of_mem (Finset.mem_erase.mpr ⟨hne, hold'⟩)
    · have he' : e = ⟨key, _get_unique_file_name s.fs folder target, ts⟩ := by
        simpa using hnew
      rw [he']
      cases copy_file with
      | true => rw [if_pos rfl]; exact Finset.mem_insert_self _ _
      | false => rw [if_neg (by simp)]; exact Finset.mem_insert_self _ _

/-- C1 (amended): starting from an empty store and folder, after every
sequence of successful add_file calls none of whose source paths lies
inside the cache folder, no two metadata rows share a key and no two
metadata rows share a stored file name. -/
theorem c1_uniqueness (folder : String) (s0 s : CState)
    (hinit : EmptyInit folder s0)
    (hreach : Relation.ReflTransGen (AddStepOutside folder) s0 s) :
    (s.table.map Entry.key).Nodup ∧ (s.table.map Entry.file_name).Nodup := by
  have hinv : CacheInv folder s := by
    induction hreach with
    | refl =>
      refine ⟨?_, ?_, ?_⟩
      · rw [hinit.1]; exact List.nodup_nil
      · rw [hinit.1]; exact List.nodup_nil
      · intro e he; rw [hinit.1] at he; cases he
    | tail hr hstep ih =>
      obtain ⟨s1, key, fp, target, ts, copy_file, P, hfp, h⟩ := hstep
      exact inv_step folder _ _ _ _ _ _ _ _ hfp h ih
  exact ⟨hinv.1, hinv.2.1⟩

theorem c1_uniqueness_witness :
    (([⟨"k1", "x.txt", "t"⟩] : List Entry).map Entry.key).Nodup ∧
    (([⟨"k1", "x.txt", "t"⟩] : List Entry).map Entry.file_name).Nodup :=
  c1_uniqueness "cache" ⟨[], {"/tmp/a"}⟩
    ⟨[⟨"k1", "x.txt", "t"⟩], {"cache/x.txt", "/tmp/a"}⟩
    ⟨rfl, fun n hmem => pjoin_cache_ne_tmp n (Finset.mem_singleton.mp hmem)⟩
    (Relation.ReflTransGen.single
      (AddStepOutside.step ⟨[], {"/tmp/a"}⟩ "k1" "/tmp/a" "x.txt" "t" true
        ⟨[⟨"k1", "x.txt", "t"⟩], {"cache/x.txt", "/tmp/a"}⟩ (some "cache/x.txt")
        (fun n hEq => pjoin_cache_ne_tmp n hEq.symm)
        (by decide)))

/-- C1 is false exactly as stated: from an empty store and folder, three
successful add_file calls — the second of which passes the first stored
file's path as its move source — end in a state where the rows of keys
k1 and k3 both carry the stored file name x.txt. -/
theorem c1_counterexample :
    EmptyInit "cache" ⟨[], {"/tmp/a"}⟩ ∧
    Relation.ReflTransGen (AddStep "cache") ⟨[], {"/tmp/a"}⟩
      ⟨[⟨"k1", "x.txt", "t"⟩, ⟨"k2", "y.txt", "t"⟩, ⟨"k3", "x.txt", "t"⟩],
        {"cache/x.txt", "cache/y.txt", "/tmp/a"}⟩ ∧
    ¬ ((([⟨"k1", "x.txt", "t"⟩, ⟨"k2", "y.txt", "t"⟩, ⟨"k3", "x.txt", "t"⟩] : List Entry).map
        Entry.file_name).Nodup) := by
  refine ⟨⟨rfl, fun n hmem => pjoin_cache_ne_tmp n (Finset.mem_singleton.mp hmem)⟩, ?_, by decide⟩
  refine Relation.ReflTransGen.head
    (AddStep.step ⟨[], {"/tmp/a"}⟩ "k1" "/tmp/a" "x.txt" "t" true
      ⟨[⟨"k1", "x.txt", "t"⟩], {"cache/x.txt", "/tmp/a"}⟩ (some "cache/x.txt") (by decide))
    (Relation.ReflTransGen.head
      (AddStep.step ⟨[⟨"k1", "x.txt", "t"⟩], {"cache/x.txt", "/tmp/a"}⟩
        "k2" "cache/x.txt" "y.txt" "t" false
        ⟨[⟨"k1", "x.txt", "t"⟩, ⟨"k2", "y.txt", "t"⟩], {"cache/y.txt", "/tmp/a"}⟩
        (some "cache/y.txt") (by decide))
      (Relation.ReflTransGen.single
        (AddStep.step ⟨[⟨"k1", "x.txt", "t"⟩, ⟨"k2", "y.txt", "t"⟩], {"cache/y.txt", "/tmp/a"}⟩
          "k3" "/tmp/a" "x.txt" "t" true
          ⟨[⟨"k1", "x.txt", "t"⟩, ⟨"k2", "y.txt", "t"⟩, ⟨"k3", "x.txt", "t"⟩],
            {"cache/x.txt", "cache/y.txt", "/tmp/a"}⟩
          (some "cache/x.txt") (by decide))))

theorem digitChar_isDigit {k : Nat} (h : k < 10) : (Nat.digitChar k).isDigit = true := by
  interval_cases k <;> decide

theorem digitVal_digitChar {k : Nat} (h : k < 10) : digitVal (Nat.digitChar k) = k := by
  interval_cases k <;> decide

theorem digitChar_lt_iff {a b : Nat} (ha : a < 10) (hb : b < 10) :
    Nat.digitChar a < Nat.digitChar b ↔ a < b := by
  interval_cases a <;> interval_cases b <;> decide

theorem digitChar_eq_iff {a b : Nat} (ha : a < 10) (hb : b < 10) :
    Nat.digitChar a = Nat.digitChar b ↔ a = b := by
  interval_cases a <;> interval_cases b <;> decide

theorem padL_two (n : Nat) :
    padL 2 n = [Nat.digitChar (n / 10), Nat.digitChar (n % 10)] := by
  norm_num [padL]

theorem padL_four (n : Nat) :
    padL 4 n = [Nat.digitChar (n / 1000), Nat.digitChar (n % 1000 / 100),
      Nat.digitChar (n % 1000 % 100 / 10), Nat.digitChar (n % 1000 % 100 % 10)] := by
  norm_num [padL]

theorem strf_aware (dt : DT) (o : Int) (ho : dt.offset = some o) :
    strfTimestamp dt =
      [Nat.digitChar (dt.year / 1000), Nat.digitChar (dt.year % 1000 / 100),
       Nat.digitChar (dt.year % 1000 % 100 / 10), Nat.digitChar (dt.year % 1000 % 100 % 10),
       '-', Nat.digitChar (dt.month / 10), Nat.digitChar (dt.month % 10),
       '-', Nat.digitChar (dt.day / 10), Nat.digitChar (dt.day % 10),
       'T', Nat.digitChar (dt.hour / 10), Nat.digitChar (dt.hour % 10),
       ':', Nat.digitChar (dt.minute / 10), Nat.digitChar (dt.minute % 10),
       ':', Nat.digitChar (dt.second / 10), Nat.digitChar (dt.second % 10),
       (if o < 0 then '-' else '+'),
       Nat.digitChar (o.natAbs / 60 / 10), Nat.digitChar (o.natAbs / 60 % 10),
       Nat.digitChar (o.natAbs % 60 / 10), Nat.digitChar (o.natAbs % 60 % 10)] := by
  rw [strfTimestamp, ho]
  simp [tzChars, padL_two, padL_four]

theorem strf_naive (dt : DT) (ho : dt.offset = none) :
    strfTimestamp dt =
      [Nat.digitChar (dt.year / 1000), Nat.digitChar (dt.year % 1000 / 100),
       Nat.digitChar (dt.year % 1000 % 100 / 10), Nat.digitChar (dt.year % 1000 % 100 % 10),
       '-', Nat.digitChar (dt.month / 10), Nat.digitChar (dt.month % 10),
       '-', Nat.digitChar (dt.day / 10), Nat.digitChar (dt.day % 10),
       'T', Nat.digitChar (dt.hour / 10), Nat.digitChar (dt.hour % 10),
       ':', Nat.digitChar (dt.minute / 10), Nat.digitChar (dt.minute % 10),
       ':', Nat.digitChar (dt.second / 10), Nat.digitChar (dt.second % 10)] := by
  rw [strfTimestamp, ho]
  simp [padL_two, padL_four]

theorem format_data_aware (dt : DT) (o : Int) (ho : dt.offset = some o) :
    (format_as_timestamp dt).data =
      [Nat.digitChar (dt.year / 1000), Nat.digitChar (dt.year % 1000 / 100),
       Nat.digitChar (dt.year % 1000 % 100 / 10), Nat.digitChar (dt.year % 1000 % 100 % 10),
       '-', Nat.digitChar (dt.month / 10), Nat.digitChar (dt.month % 10),
       '-', Nat.digitChar (dt.day / 10), Nat.digitChar (dt.day % 10),
       'T', Nat.digitChar (dt.hour / 10), Nat.digitChar (dt.hour % 10),
       ':', Nat.digitChar (dt.minute / 10), Nat.digitChar (dt.minute % 10),
       ':', Nat.digitChar (dt.second / 10), Nat.digitChar (dt.second % 10),
       (if o < 0 then '-' else '+'),
       Nat.digitChar (o.natAbs / 60 / 10), Nat.digitChar (o.natAbs / 60 % 10),
       ':', Nat.digitChar (o.natAbs % 60 / 10), Nat.digitChar (o.natAbs % 60 % 10)] := by
  rw [format_as_timestamp]
  rw [strf_aware dt o ho]
  rfl

theorem format_data_naive (dt : DT) (ho : dt.offset = none) :
    (format_as_timestamp dt).data =
      [Nat.digitChar (dt.year / 1000), Nat.digitChar (dt.year % 1000 / 100),
       Nat.digitChar (dt.year % 1000 % 100 / 10), Nat.digitChar (dt.year % 1000 % 100 % 10),
       '-', Nat.digitChar (dt.month / 10), Nat.digitChar (dt.month % 10),
       '-', Nat.digitChar (dt.day / 10), Nat.digitChar (dt.day % 10),
       'T', Nat.digitChar (dt.hour / 10), Nat.digitChar (dt.hour % 10),
       ':', Nat.digitChar (dt.minute / 10), Nat.digitChar (dt.minute % 10),
       ':', ':', Nat.digitChar (dt.second / 10), Nat.digitChar (dt.second % 10)] := by
  rw [format_as_timestamp]
  rw [strf_naive dt ho]
  rfl

/-- C10: applied to a naive datetime, whose %z directive renders as the
empty string, format_as_timestamp does not raise (it is a total
function of the fields), but the slicing then lands inside the time
fields: the result is the 19-character %Y-%m-%dT%H:%M:%S rendering with
an extra colon spliced in directly before the two digits of the seconds
field (a double colon), it carries no UTC offset at all, and it is not
of the documented YYYY-MM-DDTHH:MM:SS offset timestamp shape (its parse
yields NULL). -/
theorem c10_naive_format (dt : DT) (ho : dt.offset = none) :
    (format_as_timestamp dt).data =
      [Nat.digitChar (dt.year / 1000), Nat.digitChar (dt.year % 1000 / 100),
       Nat.digitChar (dt.year % 1000 % 100 / 10), Nat.digitChar (dt.year % 1000 % 100 % 10),
       '-', Nat.digitChar (dt.month / 10), Nat.digitChar (dt.month % 10),
       '-', Nat.digitChar (dt.day / 10), Nat.digitChar (dt.day % 10),
       'T', Nat.digitChar (dt.hour / 10), Nat.digitChar (dt.hour % 10),
       ':', Nat.digitChar (dt.minute / 10), Nat.digitChar (dt.minute % 10),
       ':', ':', Nat.digitChar (dt.second / 10), Nat.digitChar (dt.second % 10)] ∧
    (format_as_timestamp dt).length = 20 ∧
    parseTs (format_as_timestamp dt) = none := by
  have hdata := format_data_naive dt ho
  refine ⟨hdata, ?_, ?_⟩
  · rw [String.length, hdata]
    rfl
  · rw [parseTs, hdata]

theorem c10_naive_format_witness :
    (⟨2020, 1, 2, 3, 4, 5, none⟩ : DT).offset = none ∧
    ((format_as_timestamp ⟨2020, 1, 2, 3, 4, 5, none⟩).data =
      ['2', '0', '2', '0', '-', '0', '1', '-', '0', '2', 'T', '0', '3', ':', '0', '4',
        ':', ':', '0', '5'] ∧
     (format_as_timestamp ⟨2020, 1, 2, 3, 4, 5, none⟩).length = 20 ∧
     parseTs (format_as_timestamp ⟨2020, 1, 2, 3, 4, 5, none⟩) = none) :=
  ⟨rfl, c10_naive_format ⟨2020, 1, 2, 3, 4, 5, none⟩ rfl⟩

theorem monthLen_le_31 (l : Bool) (m : Nat) : monthLen l m ≤ 31 := by
  unfold monthLen
  split <;> (try split_ifs) <;> omega

theorem parseTs_format (dt : DT) (hv : dt.Valid) (o : Int) (ho : dt.offset = some o) :
    parseTs (format_as_timestamp dt) = some (instantSecs dt) := by
  obtain ⟨h1, h2, h3, h4, h5, h6, h7, h8, h9, hoff⟩ := hv
  have hob := hoff o (by rw [ho]; rfl)
  have hna : o.natAbs ≤ 1439 := by omega
  have hml := monthLen_le_31 (leapYear dt.year) dt.month
  have hdata := format_data_aware dt o ho
  have hd01 : (Nat.digitChar (dt.year / 1000)).isDigit = true := digitChar_isDigit (by omega)
  have hd02 : (Nat.digitChar (dt.year % 1000 / 100)).isDigit = true := digitChar_isDigit (by omega)
  have hd03 : (Nat.digitChar (dt.year % 1000 % 100 / 10)).isDigit = true := digitChar_isDigit (by omega)
  have hd04 : (Nat.digitChar (dt.year % 1000 % 100 % 10)).isDigit = true := digitChar_isDigit (by omega)
  have hd05 : (Nat.digitChar (dt.month / 10)).isDigit = true := digitChar_isDigit (by omega)
  have hd06 : (Nat.digitChar (dt.month % 10)).isDigit = true := digitChar_isDigit (by omega)
  have hd07 : (Nat.digitChar (dt.day / 10)).isDigit = true := digitChar_isDigit (by omega)
  have hd08 : (Nat.digitChar (dt.day % 10)).isDigit = true := digitChar_isDigit (by omega)
  have hd09 : (Nat.digitChar (dt.hour / 10)).isDigit = true := digitChar_isDigit (by omega)
  have hd10 : (Nat.digitChar (dt.hour % 10)).isDigit = true := digitChar_isDigit (by omega)
  have hd11 : (Nat.digitChar (dt.minute / 10)).isDigit = true := digitChar_isDigit (by omega)
  have hd12 : (Nat.digitChar (dt.minute % 10)).isDigit = true := digitChar_isDigit (by omega)
  have hd13 : (Nat.digitChar (dt.second / 10)).isDigit = true := digitChar_isDigit (by omega)
  have hd14 : (Nat.digitChar (dt.second % 10)).isDigit = true := digitChar_isDigit (by omega)
  have hd15 : (Nat.digitChar (o.natAbs / 60 / 10)).isDigit = true := digitChar_isDigit (by omega)
  have hd16 : (Nat.digitChar (o.natAbs / 60 % 10)).isDigit = true := digitChar_isDigit (by omega)
  have hd17 : (Nat.digitChar (o.natAbs % 60 / 10)).isDigit = true := digitChar_isDigit (by omega)
  have hd18 : (Nat.digitChar (o.natAbs % 60 % 10)).isDigit = true := digitChar_isDigit (by omega)
  have he01 : digitVal (Nat.digitChar (dt.year / 1000)) = dt.year / 1000 :=
    digitVal_digitChar (by omega)
  have he02 : digitVal (Nat.digitChar (dt.year % 1000 / 100)) = dt.year % 1000 / 100 :=
    digitVal_digitChar (by omega)
  have he03 : digitVal (Nat.digitChar (dt.year % 1000 % 100 / 10)) = dt.year % 1000 % 100 / 10 :=
    digitVal_digitChar (by omega)
  have he04 : digitVal (Nat.digitChar (dt.year % 1000 % 100 % 10)) = dt.year % 1000 % 100 % 10 :=
    digitVal_digitChar (by omega)
  have he05 : digitVal (Nat.digitChar (dt.month / 10)) = dt.month / 10 :=
    digitVal_digitChar (by omega)
  have he06 : digitVal (Nat.digitChar (dt.month % 10)) = dt.month % 10 :=
    digitVal_digitChar (by omega)
  have he07 : digitVal (Nat.digitChar (dt.day / 10)) = dt.day / 10 :=
    digitVal_digitChar (by omega)
  have he08 : digitVal (Nat.digitChar (dt.day % 10)) = dt.day % 10 :=
    digitVal_digitChar (by omega)
  have he09 : digitVal (Nat.digitChar (dt.hour / 10)) = dt.hour / 10 :=
    digitVal_digitChar (by omega)
  have he10 : digitVal (Nat.digitChar (dt.hour % 10)) = dt.hour % 10 :=
    digitVal_digitChar (by omega)
  have he11 : digitVal (Nat.digitChar (dt.minute / 10)) = dt.minute / 10 :=
    digitVal_digitChar (by omega)
  have he12 : digitVal (Nat.digitChar (dt.minute % 10)) = dt.minute % 10 :=
    digitVal_digitChar (by omega)
  have he13 : digitVal (Nat.digitChar (dt.second / 10)) = dt.second / 10 :=
    digitVal_digitChar (by omega)
  have he14 : digitVal (Nat.digitChar (dt.second % 10)) = dt.second % 10 :=
    digitVal_digitChar (by omega)
  have he15 : digitVal (Nat.digitChar (o.natAbs / 60 / 10)) = o.natAbs / 60 / 10 :=
    digitVal_digitChar (by omega)
  have he16 : digitVal (Nat.digitChar (o.natAbs / 60 % 10)) = o.natAbs / 60 % 10 :=
    digitVal_digitChar (by omega)
  have he17 : digitVal (Nat.digitChar (o.natAbs % 60 / 10)) = o.natAbs % 60 / 10 :=
    digitVal_digitChar (by omega)
  have he18 : digitVal (Nat.digitChar (o.natAbs % 60 % 10)) = o.natAbs % 60 % 10 :=
    digitVal_digitChar (by omega)
  have hyy : dt.year / 1000 * 1000 + dt.year % 1000 / 100 * 100 +
      dt.year % 1000 % 100 / 10 * 10 + dt.year % 1000 % 100 % 10 = dt.year := by omega
  have hmo : dt.month / 10 * 10 + dt.month % 10 = dt.month := by omega
  have hdd : dt.day / 10 * 10 + dt.day % 10 = dt.day := by omega
  have hhh : dt.hour / 10 * 10 + dt.hour % 10 = dt.hour := by omega
  have hmi : dt.minute / 10 * 10 + dt.minute % 10 = dt.minute := by omega
  have hss : dt.second / 10 * 10 + dt.second % 10 = dt.second := by omega
  have hoh : o.natAbs / 60 / 10 * 10 + o.natAbs / 60 % 10 = o.natAbs / 60 := by omega
  have hom : o.natAbs % 60 / 10 * 10 + o.natAbs % 60 % 10 = o.natAbs % 60 := by omega
  rw [parseTs, hdata]
  by_cases hneg : o < 0
  · simp only [hneg, if_true, List.all_cons, List.all_nil,
      hd01, hd02, hd03, hd04, hd05, hd06, hd07, hd08, hd09, hd10, hd11, hd12, hd13, hd14,
      hd15, hd16, hd17, hd18,
      he01, he02, he03, he04, he05, he06, he07, he08, he09, he10, he11, he12, he13, he14,
      he15, he16, he17, he18,
      hyy, hmo, hdd, hhh, hmi, hss, hoh, hom,
      Bool.and_true, Bool.true_and, beq_self_eq_true, Bool.or_true, Bool.true_or]
    try rw [if_pos (show 1 ≤ dt.month ∧ dt.month ≤ 12 ∧ 1 ≤ dt.day ∧ dt.day ≤ 31 ∧
        dt.hour ≤ 23 ∧ dt.minute ≤ 59 ∧ dt.second ≤ 59 ∧ o.natAbs / 60 ≤ 23 ∧
        o.natAbs % 60 ≤ 59 from
      ⟨h3, h4, h5, by omega, h7, h8, h9, by omega, by omega⟩)]
    simp only [instantSecs, civilSecs, ho, Option.getD_some, Option.some.injEq]
    omega
  · have hpm : (('+' : Char) == '-') = false := rfl
    simp only [hneg, if_false, List.all_cons, List.all_nil,
      hd01, hd02, hd03, hd04, hd05, hd06, hd07, hd08, hd09, hd10, hd11, hd12, hd13, hd14,
      hd15, hd16, hd17, hd18,
      he01, he02, he03, he04, he05, he06, he07, he08, he09, he10, he11, he12, he13, he14,
      he15, he16, he17, he18,
      hyy, hmo, hdd, hhh, hmi, hss, hoh, hom, hpm, Bool.false_eq_true,
      Bool.and_true, Bool.true_and, beq_self_eq_true, Bool.or_true, Bool.true_or]
    try rw [if_pos (show 1 ≤ dt.month ∧ dt.month ≤ 12 ∧ 1 ≤ dt.day ∧ dt.day ≤ 31 ∧
        dt.hour ≤ 23 ∧ dt.minute ≤ 59 ∧ dt.second ≤ 59 ∧ o.natAbs / 60 ≤ 23 ∧
        o.natAbs % 60 ≤ 59 from
      ⟨h3, h4, h5, by omega, h7, h8, h9, by omega, by omega⟩)]
    simp only [if_true, instantSecs, civilSecs, ho, Option.getD_some, Option.some.injEq]
    omega

/-- C5: delete_older_than removes exactly the entries whose stored
timestamp string denotes an instant chronologically strictly earlier
than the cutoff instant now minus age (the date/time-aware comparison of
the stored timestamp strings, with the UTC offsets applied), and leaves
every entry at or after the cutoff untouched.  Stated for a store whose
rows carry well-formed timestamps (each row r the formatted timestamp of
a valid aware datetime tsOf r) and whose stored files are present. -/
theorem c5_delete_older_than (folder : String) (s : CState) (cutoff : DT)
    (tsOf : Entry → DT) (oc : Int)
    (hcv : cutoff.Valid) (hoc : cutoff.offset = some oc)
    (hts : ∀ r ∈ s.table, (tsOf r).Valid ∧ (tsOf r).offset.isSome = true ∧
      r.timestamp = format_as_timestamp (tsOf r))
    (hkeys : (s.table.map Entry.key).Nodup)
    (hnames : (s.table.map Entry.file_name).Nodup)
    (hfiles : ∀ r ∈ s.table, pjoin folder r.file_name ∈ s.fs) :
    (delete_older_than folder s cutoff).2 = [] ∧
    (delete_older_than folder s cutoff).1.table =
      s.table.filter (fun r => decide ¬ (instantSecs (tsOf r) < instantSecs cutoff)) ∧
    (∀ q, q ∈ (delete_older_than folder s cutoff).1.fs ↔ q ∈ s.fs ∧
      q ∉ (s.table.filter
          (fun r => decide (instantSecs (tsOf r) < instantSecs cutoff))).map
        (fun r => pjoin folder r.file_name)) := by
  have hsql : ∀ r ∈ s.table,
      sqliteDtLt r.timestamp (format_as_timestamp cutoff) =
        decide (instantSecs (tsOf r) < instantSecs cutoff) := by
    intro r hr
    obtain ⟨hv, hsome, hfmt⟩ := hts r hr
    obtain ⟨o, hoo⟩ := Option.isSome_iff_exists.mp hsome
    rw [sqliteDtLt, hfmt, parseTs_format (tsOf r) hv o hoo,
      parseTs_format cutoff hcv oc hoc]
  have hfc : s.table.filter
        (fun r => sqliteDtLt r.timestamp (format_as_timestamp cutoff)) =
      s.table.filter (fun r => decide (instantSecs (tsOf r) < instantSecs cutoff)) :=
    List.filter_congr hsql
  have hdo : delete_older_than folder s cutoff =
      _delete_entries folder s
        ((s.table.filter
            (fun r => decide (instantSecs (tsOf r) < instantSecs cutoff))).map
          (fun r => (r.key, r.file_name))) := by
    rw [delete_older_than, hfc]
  set sel := s.table.filter
    (fun r => decide (instantSecs (tsOf r) < instantSecs cutoff)) with hsel
  have hselsub : sel.Sublist s.table := List.filter_sublist s.table
  have hentk : (sel.map (fun r => (r.key, r.file_name))).map Prod.fst =
      sel.map Entry.key := by
    rw [List.map_map]; rfl
  have hentn : (sel.map (fun r => (r.key, r.file_name))).map Prod.snd =
      sel.map Entry.file_name := by
    rw [List.map_map]; rfl
  have hkeys' : ((sel.map (fun r => (r.key, r.file_name))).map Prod.fst).Nodup := by
    rw [hentk]
    exact (hselsub.map Entry.key).nodup hkeys
  have hnames' : ((sel.map (fun r => (r.key, r.file_name))).map Prod.snd).Nodup := by
    rw [hentn]
    exact (hselsub.map Entry.file_name).nodup hnames
  obtain ⟨hc1, hc2, hc3, _, _⟩ := c2_delete_entries folder s
    (sel.map (fun r => (r.key, r.file_name))) hkeys' hnames'
  have hallpres : ∀ e ∈ sel.map (fun r => (r.key, r.file_name)),
      pjoin folder e.2 ∈ s.fs := by
    intro e he
    rw [List.mem_map] at he
    obtain ⟨r, hr, hre⟩ := he
    rw [← hre]
    exact hfiles r (hselsub.mem hr)
  have hfilpres : (sel.map (fun r => (r.key, r.file_name))).filter
      (fun e => decide (pjoin folder e.2 ∈ s.fs)) =
        sel.map (fun r => (r.key, r.file_name)) :=
    List.filter_eq_self.mpr (fun e he => decide_eq_true (hallpres e he))
  have hfilabs : (sel.map (fun r => (r.key, r.file_name))).filter
      (fun e => decide (pjoin folder e.2 ∉ s.fs)) = [] := by
    rw [List.filter_eq_nil_iff]
    intro e he
    simp only [decide_not, Bool.not_eq_true', decide_eq_false_iff_not, not_not]
    exact hallpres e he
  refine ⟨?_, ?_, ?_⟩
  · rw [hdo, hc1, hfilabs]
    rfl
  · rw [hdo, hc2, hfilpres, hentk]
    apply List.filter_congr
    intro row hrow
    have hiff : row.key ∈ sel.map Entry.key ↔
        instantSecs (tsOf row) < instantSecs cutoff := by
      constructor
      · intro hmem
        rw [List.mem_map] at hmem
        obtain ⟨r', hr', hrk⟩ := hmem
        have hr'tab : r' ∈ s.table := hselsub.mem hr'
        have : r' = row := List.inj_on_of_nodup_map hkeys hr'tab hrow hrk
        rw [this] at hr'
        rw [hsel, List.mem_filter] at hr'
        exact of_decide_eq_true hr'.2
      · intro hlt
        exact List.mem_map_of_mem Entry.key
          (by rw [hsel, List.mem_filter]; exact ⟨hrow, decide_eq_true hlt⟩)
    rw [decide_eq_decide]
    exact not_congr hiff
  · intro q
    rw [hdo]
    rw [hc3 q, hfilpres]
    rw [List.map_map]
    rfl

/-- Witness for C5, the boundary example of the specification: entries
timestamped 31 days, 29 days, and just under 30 days before now; with
age = 30 days (cutoff 2020-03-01T12:00:00+00:00, for now =
2020-03-31T12:00:00+00:00), only the 31-day-old entry is removed. -/
theorem c5_delete_older_than_witness :
    (delete_older_than "cache"
        ⟨[⟨"1", "a.txt", "2020-02-29T12:00:00+00:00"⟩,
          ⟨"2", "b.txt", "2020-03-02T12:00:00+00:00"⟩,
          ⟨"3", "c.txt", "2020-03-01T12:00:01+00:00"⟩],
          {"cache/a.txt", "cache/b.txt", "cache/c.txt"}⟩
        ⟨2020, 3, 1, 12, 0, 0, some 0⟩).2 = [] ∧
    (delete_older_than "cache"
        ⟨[⟨"1", "a.txt", "2020-02-29T12:00:00+00:00"⟩,
          ⟨"2", "b.txt", "2020-03-02T12:00:00+00:00"⟩,
          ⟨"3", "c.txt", "2020-03-01T12:00:01+00:00"⟩],
          {"cache/a.txt", "cache/b.txt", "cache/c.txt"}⟩
        ⟨2020, 3, 1, 12, 0, 0, some 0⟩).1.table =
      [⟨"2", "b.txt", "2020-03-02T12:00:00+00:00"⟩,
       ⟨"3", "c.txt", "2020-03-01T12:00:01+00:00"⟩] := by
  have h := c5_delete_older_than "cache"
    ⟨[⟨"1", "a.txt", "2020-02-29T12:00:00+00:00"⟩,
      ⟨"2", "b.txt", "2020-03-02T12:00:00+00:00"⟩,
      ⟨"3", "c.txt", "2020-03-01T12:00:01+00:00"⟩],
      {"cache/a.txt", "cache/b.txt", "cache/c.txt"}⟩
    ⟨2020, 3, 1, 12, 0, 0, some 0⟩
    (fun r => if r.key = "1" then ⟨2020, 2, 29, 12, 0, 0, some 0⟩ else
      if r.key = "2" then ⟨2020, 3, 2, 12, 0, 0, some 0⟩ else
        ⟨2020, 3, 1, 12, 0, 1, some 0⟩) 0
    (by decide) rfl (by decide) (by decide) (by decide) (by decide)
  refine ⟨h.1, ?_⟩
  rw [h.2.1]
  decide

theorem lex_cons_iff' {r : Char → Char → Prop} {x y : Char} {l₁ l₂ : List Char} :
    List.Lex r (x :: l₁) (y :: l₂) ↔ r x y ∨ (x = y ∧ List.Lex r l₁ l₂) := by
  constructor
  · intro h
    cases h with
    | cons h => exact Or.inr ⟨rfl, h⟩
    | rel h => exact Or.inl h
  · rintro (h | ⟨rfl, h⟩)
    · exact List.Lex.rel h
    · exact List.Lex.cons h

theorem lex_irrefl : ∀ l : List Char, ¬ List.Lex (fun a b => a < b) l l := by
  intro l
  induction l with
  | nil => exact List.Lex.not_nil_right _ _
  | cons x l ih =>
    intro h
    rcases lex_cons_iff'.mp h with h | ⟨_, h⟩
    · exact lt_irrefl x h
    · exact ih h

theorem lex_append_iff {r : Char → Char → Prop} (t₁ t₂ : List Char) :
    ∀ (s₁ s₂ : List Char), s₁.length = s₂.length →
    (List.Lex r (s₁ ++ t₁) (s₂ ++ t₂) ↔
      List.Lex r s₁ s₂ ∨ (s₁ = s₂ ∧ List.Lex r t₁ t₂)) := by
  intro s₁
  induction s₁ with
  | nil =>
    intro s₂ h
    cases s₂ with
    | nil => simp
    | cons y s₂ => simp at h
  | cons x s₁ ih =>
    intro s₂ h
    cases s₂ with
    | nil => simp at h
    | cons y s₂ =>
      simp only [List.cons_append, lex_cons_iff']
      rw [ih s₂ (by simpa using h)]
      constructor
      · rintro (hr | ⟨rfl, hs | ⟨rfl, ht⟩⟩)
        · exact Or.inl (Or.inl hr)
        · exact Or.inl (Or.inr ⟨rfl, hs⟩)
        · exact Or.inr ⟨rfl, ht⟩
      · rintro ((hr | ⟨rfl, hs⟩) | ⟨heq, ht⟩)
        · exact Or.inl hr
        · exact Or.inr ⟨rfl, Or.inl hs⟩
        · obtain ⟨rfl, rfl⟩ : x = y ∧ s₁ = s₂ := by
            injection heq with ha hb
            exact ⟨ha, hb⟩
          exact Or.inr ⟨rfl, Or.inr ⟨rfl, ht⟩⟩

theorem div_mod_lt_iff (Q a b : Nat) (hQ : 0 < Q) :
    a < b ↔ (a / Q < b / Q ∨ (a / Q = b / Q ∧ a % Q < b % Q)) := by
  have h1 : a / Q * Q + a % Q = a := Nat.div_add_mod' a Q
  have h2 : b / Q * Q + b % Q = b := Nat.div_add_mod' b Q
  have h3 := Nat.mod_lt a hQ
  have h4 := Nat.mod_lt b hQ
  constructor
  · intro hab
    by_cases hd : a / Q = b / Q
    · refine Or.inr ⟨hd, ?_⟩
      rw [hd] at h1
      omega
    · have hdle : a / Q ≤ b / Q := Nat.div_le_div_right (le_of_lt hab)
      exact Or.inl (lt_of_le_of_ne hdle hd)
  · rintro (hlt | ⟨heq, hlt⟩)
    · have h5 : (a / Q + 1) * Q ≤ b / Q * Q := Nat.mul_le_mul_right Q hlt
      have h6 : (a / Q + 1) * Q = a / Q * Q + Q := by
        rw [Nat.add_mul, Nat.one_mul]
      omega
    · rw [heq] at h1
      omega

theorem padL_lex_iff : ∀ (w a b : Nat), a < 10 ^ w → b < 10 ^ w →
    (List.Lex (fun x y => x < y) (padL w a) (padL w b) ↔ a < b) := by
  intro w
  induction w with
  | zero =>
    intro a b ha hb
    simp only [padL]
    constructor
    · intro h
      exact absurd h (List.Lex.not_nil_right _ _)
    · intro h
      omega
  | succ w ih =>
    intro a b ha hb
    have hQ : 0 < 10 ^ w := Nat.pos_pow_of_pos w (by norm_num)
    have hps : 10 ^ (w + 1) = 10 ^ w * 10 := pow_succ 10 w
    have hda : a / 10 ^ w < 10 := by
      rw [Nat.div_lt_iff_lt_mul hQ]
      omega
    have hdb : b / 10 ^ w < 10 := by
      rw [Nat.div_lt_iff_lt_mul hQ]
      omega
    show List.Lex _ (Nat.digitChar (a / 10 ^ w) :: padL w (a % 10 ^ w))
        (Nat.digitChar (b / 10 ^ w) :: padL w (b % 10 ^ w)) ↔ a < b
    rw [lex_cons_iff', digitChar_lt_iff hda hdb, digitChar_eq_iff hda hdb,
      ih (a % 10 ^ w) (b % 10 ^ w) (Nat.mod_lt a hQ) (Nat.mod_lt b hQ)]
    exact (div_mod_lt_iff (10 ^ w) a b hQ).symm

theorem padL_eq_iff : ∀ (w a b : Nat), a < 10 ^ w → b < 10 ^ w →
    (padL w a = padL w b ↔ a = b) := by
  intro w
  induction w with
  | zero =>
    intro a b ha hb
    simp only [padL]
    constructor
    · intro _
      omega
    · intro _
      trivial
  | succ w ih =>
    intro a b ha hb
    have hQ : 0 < 10 ^ w := Nat.pos_pow_of_pos w (by norm_num)
    have hps : 10 ^ (w + 1) = 10 ^ w * 10 := pow_succ 10 w
    have hda : a / 10 ^ w < 10 := by
      rw [Nat.div_lt_iff_lt_mul hQ]
      omega
    have hdb : b / 10 ^ w < 10 := by
      rw [Nat.div_lt_iff_lt_mul hQ]
      omega
    show (Nat.digitChar (a / 10 ^ w) :: padL w (a % 10 ^ w)) =
        (Nat.digitChar (b / 10 ^ w) :: padL w (b % 10 ^ w)) ↔ a = b
    rw [List.cons.injEq, digitChar_eq_iff hda hdb,
      ih (a % 10 ^ w) (b % 10 ^ w) (Nat.mod_lt a hQ) (Nat.mod_lt b hQ)]
    have h1 := Nat.div_add_mod a (10 ^ w)
    have h2 := Nat.div_add_mod b (10 ^ w)
    constructor
    · rintro ⟨hd, hm⟩
      rw [hd] at h1
      omega
    · rintro rfl
      exact ⟨rfl, rfl⟩

theorem lex_block_iff (w a b : Nat) (c : Char) (t₁ t₂ : List Char)
    (ha : a < 10 ^ w) (hb : b < 10 ^ w) :
    List.Lex (fun x y => x < y) (padL w a ++ c :: t₁) (padL w b ++ c :: t₂) ↔
      a < b ∨ (a = b ∧ List.Lex (fun x y => x < y) t₁ t₂) := by
  rw [lex_append_iff _ _ _ _ (by rw [padL_length, padL_length])]
  rw [padL_lex_iff w a b ha hb, lex_cons_iff']
  constructor
  · rintro (h | ⟨heq, hcc | ⟨_, ht⟩⟩)
    · exact Or.inl h
    · exact absurd hcc (lt_irrefl c)
    · exact Or.inr ⟨(padL_eq_iff w a b ha hb).mp heq, ht⟩
  · rintro (h | ⟨rfl, ht⟩)
    · exact Or.inl h
    · exact Or.inr ⟨rfl, Or.inr ⟨rfl, ht⟩⟩

theorem lex_last_iff (w a b : Nat) (t : List Char)
    (ha : a < 10 ^ w) (hb : b < 10 ^ w) :
    List.Lex (fun x y => x < y) (padL w a ++ t) (padL w b ++ t) ↔ a < b := by
  rw [lex_append_iff _ _ _ _ (by rw [padL_length, padL_length])]
  rw [padL_lex_iff w a b ha hb]
  constructor
  · rintro (h | ⟨_, ht⟩)
    · exact h
    · exact absurd ht (lex_irrefl t)
  · exact Or.inl

theorem leapYear_iff (y : Nat) :
    leapYear y = true ↔ ((y % 4 = 0 ∧ y % 100 ≠ 0) ∨ y % 400 = 0) := by
  simp [leapYear, Bool.or_eq_true, Bool.and_eq_true, beq_iff_eq, bne_iff_ne]

theorem leapsBefore_succ (y : Nat) (hy : 1 ≤ y) :
    leapsBefore (y + 1) = leapsBefore y + (if leapYear y then 1 else 0) := by
  have hyy : y - 1 + 1 = y := by omega
  have h4 : y / 4 = (y - 1) / 4 + if 4 ∣ y then 1 else 0 := by
    conv_lhs => rw [← hyy]
    rw [Nat.succ_div, hyy]
  have h100 : y / 100 = (y - 1) / 100 + if 100 ∣ y then 1 else 0 := by
    conv_lhs => rw [← hyy]
    rw [Nat.succ_div, hyy]
  have h400 : y / 400 = (y - 1) / 400 + if 400 ∣ y then 1 else 0 := by
    conv_lhs => rw [← hyy]
    rw [Nat.succ_div, hyy]
  have hsub1 : (y - 1) / 100 ≤ (y - 1) / 4 :=
    Nat.div_le_div_left (by norm_num) (by norm_num)
  have hsub2 : y / 100 ≤ y / 4 :=
    Nat.div_le_div_left (by norm_num) (by norm_num)
  have hd4 : (4 ∣ y) ↔ y % 4 = 0 := by omega
  have hd100 : (100 ∣ y) ↔ y % 100 = 0 := by omega
  have hd400 : (400 ∣ y) ↔ y % 400 = 0 := by omega
  unfold leapsBefore
  rw [Nat.add_sub_cancel]
  by_cases d400 : (400 : Nat) ∣ y
  · have d100 : (100 : Nat) ∣ y := dvd_trans (by norm_num) d400
    have d4 : (4 : Nat) ∣ y := dvd_trans (by norm_num) d100
    have hly : leapYear y = true := by
      rw [leapYear_iff]
      exact Or.inr (hd400.mp d400)
    rw [if_pos d4] at h4
    rw [if_pos d100] at h100
    rw [if_pos d400] at h400
    rw [if_pos hly]
    omega
  · by_cases d100 : (100 : Nat) ∣ y
    · have d4 : (4 : Nat) ∣ y := dvd_trans (by norm_num) d100
      have hly : leapYear y = false := by
        rw [Bool.eq_false_iff]
        intro hc
        rw [leapYear_iff] at hc
        rcases hc with ⟨_, hc⟩ | hc
        · exact hc (hd100.mp d100)
        · exact d400 (hd400.mpr hc)
      rw [if_pos d4] at h4
      rw [if_pos d100] at h100
      rw [if_neg d400] at h400
      rw [if_neg (by simp [hly])]
      omega
    · by_cases d4 : (4 : Nat) ∣ y
      · have hly : leapYear y = true := by
          rw [leapYear_iff]
          exact Or.inl ⟨hd4.mp d4, fun hc => d100 (hd100.mpr hc)⟩
        rw [if_pos d4] at h4
        rw [if_neg d100] at h100
        rw [if_neg d400] at h400
        rw [if_pos hly]
        omega
      · have hly : leapYear y = false := by
          rw [Bool.eq_false_iff]
          intro hc
          rw [leapYear_iff] at hc
          rcases hc with ⟨hc, _⟩ | hc
          · exact d4 (hd4.mpr hc)
          · exact d400 (hd400.mpr hc)
        rw [if_neg d4] at h4
        rw [if_neg d100] at h100
        rw [if_neg d400] at h400
        rw [if_neg (by simp [hly])]
        omega

theorem leapsBefore_mono (a b : Nat) (h : a ≤ b) : leapsBefore a ≤ leapsBefore b := by
  induction b with
  | zero =>
    have ha : a = 0 := by omega
    rw [ha]
  | succ b ih =>
    rcases Nat.lt_or_ge a (b + 1) with hlt | hge
    · have hab : a ≤ b := by omega
      have h1 := ih hab
      have h2 : leapsBefore b ≤ leapsBefore (b + 1) := by
        by_cases hb1 : 1 ≤ b
        · rw [leapsBefore_succ b hb1]
          split_ifs <;> omega
        · have hb0 : b = 0 := by omega
          rw [hb0]
          decide
      omega
    · have : a = b + 1 := by omega
      rw [this]

theorem doyPre_succ (l : Bool) (m : Nat) (h1 : 1 ≤ m) (h2 : m ≤ 11) :
    doyPre l (m + 1) = doyPre l m + monthLen l m := by
  interval_cases m <;> cases l <;> decide

theorem doyPre_mono (l : Bool) (a b : Nat) (h1 : 1 ≤ a) (hab : a ≤ b) (hb : b ≤ 12) :
    doyPre l a ≤ doyPre l b := by
  have ha12 : a ≤ 12 := le_trans hab hb
  interval_cases a <;> interval_cases b <;> cases l <;> decide

theorem doyPre_add_monthLen_le (l : Bool) (m : Nat) (h1 : 1 ≤ m) (h2 : m ≤ 12) :
    doyPre l m + monthLen l m ≤ 365 + (if l then 1 else 0) := by
  interval_cases m <;> cases l <;> decide

theorem dayNumber_lt_of_tuple_lt (y m d y' m' d' : Nat)
    (hy : 1 ≤ y)
    (hm1 : 1 ≤ m) (hm2 : m ≤ 12) (hd1 : 1 ≤ d) (hd2 : d ≤ monthLen (leapYear y) m)
    (hm1' : 1 ≤ m') (hm2' : m' ≤ 12) (hd1' : 1 ≤ d')
    (hlt : y < y' ∨ (y = y' ∧ (m < m' ∨ (m = m' ∧ d < d')))) :
    dayNumber y m d < dayNumber y' m' d' := by
  unfold dayNumber
  rcases hlt with hyy | ⟨rfl, hmm | ⟨rfl, hdd⟩⟩
  · have hml := doyPre_add_monthLen_le (leapYear y) m hm1 hm2
    have hsucc := leapsBefore_succ y hy
    have hmono := leapsBefore_mono (y + 1) y' (by omega)
    by_cases hl : leapYear y = true
    · rw [if_pos hl] at hsucc hml
      omega
    · rw [if_neg hl] at hsucc hml
      omega
  · have hstep := doyPre_succ (leapYear y) m hm1 (by omega)
    have hmono := doyPre_mono (leapYear y) (m + 1) m' (by omega) (by omega) hm2'
    omega
  · omega

theorem dayNumber_lt_iff (y m d y' m' d' : Nat)
    (hy : 1 ≤ y) (hm1 : 1 ≤ m) (hm2 : m ≤ 12) (hd1 : 1 ≤ d)
    (hd2 : d ≤ monthLen (leapYear y) m)
    (hy' : 1 ≤ y') (hm1' : 1 ≤ m') (hm2' : m' ≤ 12) (hd1' : 1 ≤ d')
    (hd2' : d' ≤ monthLen (leapYear y') m') :
    dayNumber y m d < dayNumber y' m' d' ↔
      (y < y' ∨ (y = y' ∧ (m < m' ∨ (m = m' ∧ d < d')))) := by
  constructor
  · intro h
    rcases Nat.lt_trichotomy y y' with h1 | h1 | h1
    · exact Or.inl h1
    · subst h1
      rcases Nat.lt_trichotomy m m' with h2 | h2 | h2
      · exact Or.inr ⟨rfl, Or.inl h2⟩
      · subst h2
        rcases Nat.lt_trichotomy d d' with h3 | h3 | h3
        · exact Or.inr ⟨rfl, Or.inr ⟨rfl, h3⟩⟩
        · subst h3
          exact absurd h (lt_irrefl _)
        · have := dayNumber_lt_of_tuple_lt y m d' y m d hy hm1 hm2 hd1' hd2'
            hm1 hm2 hd1 (Or.inr ⟨rfl, Or.inr ⟨rfl, h3⟩⟩)
          omega
      · have := dayNumber_lt_of_tuple_lt y m' d' y m d hy hm1' hm2' hd1' hd2'
          hm1 hm2 hd1 (Or.inr ⟨rfl, Or.inl h2⟩)
        omega
    · have := dayNumber_lt_of_tuple_lt y' m' d' y m d hy' hm1' hm2' hd1' hd2'
        hm1 hm2 hd1 (Or.inl h1)
      omega
  · intro h
    exact dayNumber_lt_of_tuple_lt y m d y' m' d' hy hm1 hm2 hd1 hd2 hm1' hm2' hd1' h

theorem civil_lt_iff (d1 d2 : DT) (h1 : d1.Valid) (h2 : d2.Valid) :
    civilSecs d1 < civilSecs d2 ↔
      (d1.year < d2.year ∨ (d1.year = d2.year ∧
        (d1.month < d2.month ∨ (d1.month = d2.month ∧
          (d1.day < d2.day ∨ (d1.day = d2.day ∧
            (d1.hour < d2.hour ∨ (d1.hour = d2.hour ∧
              (d1.minute < d2.minute ∨ (d1.minute = d2.minute ∧
                d1.second < d2.second)))))))))) := by
  obtain ⟨a1, a2, a3, a4, a5, a6, a7, a8, a9, _⟩ := h1
  obtain ⟨b1, b2, b3, b4, b5, b6, b7, b8, b9, _⟩ := h2
  have hA := dayNumber_lt_iff d1.year d1.month d1.day d2.year d2.month d2.day
    a1 a3 a4 a5 a6 b1 b3 b4 b5 b6
  have hB := dayNumber_lt_iff d2.year d2.month d2.day d1.year d1.month d1.day
    b1 b3 b4 b5 b6 a1 a3 a4 a5 a6
  unfold civilSecs
  omega

theorem instant_lt_iff_civil (d1 d2 : DT) (o : Int)
    (ho1 : d1.offset = some o) (ho2 : d2.offset = some o) :
    instantSecs d1 < instantSecs d2 ↔ civilSecs d1 < civilSecs d2 := by
  rw [instantSecs, instantSecs, ho1, ho2]
  simp only [Option.getD_some]
  omega

theorem format_blocks_aware (dt : DT) (o : Int) (ho : dt.offset = some o) :
    (format_as_timestamp dt).data =
      padL 4 dt.year ++ '-' :: (padL 2 dt.month ++ '-' :: (padL 2 dt.day ++
        'T' :: (padL 2 dt.hour ++ ':' :: (padL 2 dt.minute ++ ':' :: (padL 2 dt.second ++
          (if o < 0 then '-' else '+') ::
            (padL 2 (o.natAbs / 60) ++ ':' :: padL 2 (o.natAbs % 60))))))) := by
  rw [format_data_aware dt o ho]
  simp [padL_two, padL_four]

/-- C6 (amended): restricted to pairs of timezone-aware datetimes that
carry the same UTC offset, the timestamp string representation is
order-preserving: d1 is chronologically earlier than d2 exactly when
format_as_timestamp d1 is lexicographically smaller (character by
character) than format_as_timestamp d2.  Across different offsets the
equivalence fails; see the counterexample. -/
theorem c6_order_preserving (d1 d2 : DT) (o : Int)
    (h1 : d1.Valid) (h2 : d2.Valid)
    (ho1 : d1.offset = some o) (ho2 : d2.offset = some o) :
    instantSecs d1 < instantSecs d2 ↔
      List.Lex (fun a b => a < b) (format_as_timestamp d1).data
        (format_as_timestamp d2).data := by
  have hp4 : (10 : Nat) ^ 4 = 10000 := by norm_num
  have hp2 : (10 : Nat) ^ 2 = 100 := by norm_num
  have hml1 := monthLen_le_31 (leapYear d1.year) d1.month
  have hml2 := monthLen_le_31 (leapYear d2.year) d2.month
  obtain ⟨a1, a2, a3, a4, a5, a6, a7, a8, a9, ha⟩ := h1
  obtain ⟨b1, b2, b3, b4, b5, b6, b7, b8, b9, hb⟩ := h2
  rw [format_blocks_aware d1 o ho1, format_blocks_aware d2 o ho2]
  rw [lex_block_iff 4 d1.year d2.year '-' _ _ (by omega) (by omega)]
  rw [lex_block_iff 2 d1.month d2.month '-' _ _ (by omega) (by omega)]
  rw [lex_block_iff 2 d1.day d2.day 'T' _ _ (by omega) (by omega)]
  rw [lex_block_iff 2 d1.hour d2.hour ':' _ _ (by omega) (by omega)]
  rw [lex_block_iff 2 d1.minute d2.minute ':' _ _ (by omega) (by omega)]
  rw [lex_last_iff 2 d1.second d2.second _ (by omega) (by omega)]
  rw [instant_lt_iff_civil d1 d2 o ho1 ho2]
  exact civil_lt_iff d1 d2 ⟨a1, a2, a3, a4, a5, a6, a7, a8, a9, ha⟩
    ⟨b1, b2, b3, b4, b5, b6, b7, b8, b9, hb⟩

theorem c6_order_preserving_witness :
    instantSecs ⟨2020, 1, 1, 10, 0, 0, some 60⟩ <
        instantSecs ⟨2020, 1, 2, 9, 0, 0, some 60⟩ ↔
      List.Lex (fun a b => a < b)
        (format_as_timestamp ⟨2020, 1, 1, 10, 0, 0, some 60⟩).data
        (format_as_timestamp ⟨2020, 1, 2, 9, 0, 0, some 60⟩).data :=
  c6_order_preserving ⟨2020, 1, 1, 10, 0, 0, some 60⟩ ⟨2020, 1, 2, 9, 0, 0, some 60⟩ 60
    (by decide) (by decide) rfl rfl

/-- C6 is false exactly as stated: with different UTC offsets,
d1 = 2020-01-01T12:00:00+05:00 denotes the instant 07:00 UTC, which is
chronologically earlier than d2 = 2020-01-01T10:00:00+00:00, yet the
formatted timestamp of d1 is lexicographically larger, not smaller. -/
theorem c6_counterexample :
    (⟨2020, 1, 1, 12, 0, 0, some 300⟩ : DT).Valid ∧
    (⟨2020, 1, 1, 10, 0, 0, some 0⟩ : DT).Valid ∧
    instantSecs ⟨2020, 1, 1, 12, 0, 0, some 300⟩ <
      instantSecs ⟨2020, 1, 1, 10, 0, 0, some 0⟩ ∧
    ¬ List.Lex (fun a b => a < b)
        (format_as_timestamp ⟨2020, 1, 1, 12, 0, 0, some 300⟩).data
        (format_as_timestamp ⟨2020, 1, 1, 10, 0, 0, some 0⟩).data :=
  ⟨by decide, by decide, by decide, by decide⟩
